import Mathlib

/-!
Verification of the geodesic epicycloid point-generation engine of
`createEpicycloid.py` (class `CreateEpicycloidAlgorithm`).

The embedding has two layers:

* a control-flow layer over `ℚ` modelling `processAlgorithm`'s per-feature
  loop (parameter resolution with its try/except, the sampling loop, the
  geodesic calls, attribute assembly, cancellation and the bad-feature
  counter).  The geodesic solver and the per-angle trigonometric sample are
  abstract parameters of this layer, so its theorems hold for every solver.
* a real-valued layer modelling the trigonometric sample formulas of the
  inner loop (source lines 216-225) over `ℝ`.

Python floats are embedded as exact rationals (control layer) and reals
(trigonometric layer); a Python exception inside the per-feature try block
is embedded as `Option.none`, and an uncaught exception that aborts the run
as `Except.error`.
-/

namespace CreateEpicycloid

/-- Per-run configuration, as read by `processAlgorithm` (source lines
144-158).  Fields in order: `shapetype`, the three override-column flags
(`lobescol`, `startanglecol`, `radiuscol` model whether the corresponding
optional field parameter is non-empty), the raw default `radius`, the
default `startAngle`, the default `lobes`, the number of drawing
`segments`, the unit conversion factor `measureFactor` (the value of
`conversionToMeters(units)`), the `export_geom` flag, whether the source
CRS differs from EPSG:4326 (`needTransform`), and the two coordinate
transforms `to4326` and `toSinkCrs`. -/
structure Config where
  shapetype : ℤ
  lobescol : Bool
  startanglecol : Bool
  radiuscol : Bool
  radius : ℚ
  startAngle : ℚ
  lobes : ℤ
  segments : ℕ
  measureFactor : ℚ
  export_geom : Bool
  needTransform : Bool
  to4326 : ℚ × ℚ → ℚ × ℚ
  toSinkCrs : ℚ × ℚ → ℚ × ℚ

/-- One input point feature.  The three `Option` fields hold the result of
attempting to parse the feature's override attribute as the expected
numeric type (`int(feature[lobescol])`, `float(feature[startanglecol])`,
`float(feature[radiuscol])`); `none` models the Python exception raised on
an unparsable value.  `ptx`/`pty` are the anchor point in the native frame
(`feature.geometry().asPoint()`), `attrs` the input attribute row. -/
structure Feature where
  lobesVal : Option ℤ
  sangleVal : Option ℚ
  radiusVal : Option ℚ
  ptx : ℚ
  pty : ℚ
  attrs : List ℚ
deriving DecidableEq

/-- One output feature written to the sink: geometry kind flag
(`shapetype == 0` means polygon), the point ring, and the attribute row. -/
structure OutFeature where
  isPolygon : Bool
  pts : List (ℚ × ℚ)
  attrs : List ℚ
deriving DecidableEq

/-- The per-feature resolved parameters (source lines 190-205):
`sangle`, `lobes2`, `radius2` and the scale radius `r`. -/
structure Params where
  sangle : ℚ
  lobes2 : ℤ
  radius2 : ℚ
  r : ℚ
deriving DecidableEq

/-- `radius *= measureFactor` (source line 157): the run-default radius in
meters. -/
def Config.radiusM (cfg : Config) : ℚ := cfg.radius * cfg.measureFactor

/-- `r2 = radius / (lobes + 2.0)` (source line 158): the run-level
precomputed scale radius. -/
def Config.r2 (cfg : Config) : ℚ := cfg.radiusM / ((cfg.lobes : ℚ) + 2)

/-- The body of the `try` block of source lines 189-208.  Each `match` arm
returning `none` is a path on which Python raises and the `except` clause
runs (`numbad += 1; continue`): an unparsable override, or the
`ZeroDivisionError` of `radius2 / (lobes2 + 2.0)` when `lobes2 = -2`. -/
def resolveParams (cfg : Config) (f : Feature) : Option Params :=
  (if cfg.startanglecol then f.sangleVal else some cfg.startAngle).bind fun sangle =>
  (if cfg.lobescol then f.lobesVal else some cfg.lobes).bind fun lobes2 =>
  (if cfg.radiuscol then f.radiusVal.map (fun v => v * cfg.measureFactor)
   else some cfg.radiusM).bind fun radius2 =>
  if cfg.lobescol || cfg.radiuscol then
    if (lobes2 : ℚ) + 2 = 0 then none
    else some ⟨sangle, lobes2, radius2, radius2 / ((lobes2 : ℚ) + 2)⟩
  else some ⟨sangle, lobes2, radius2, cfg.r2⟩

/-- The angle-stepping `while angle <= 360.0` loop of source lines 216-225,
restricted to the angles it visits, with the accumulation `angle += step`
taken in exact rational arithmetic.  This is an idealization: the source
accumulates IEEE binary64 doubles, whose rounding is modelled separately by
`angleLoopFloat` below; the solver-level control-flow model built on this
list is insensitive to which angles the list holds.  The recursion is
fueled; every use supplies fuel `segments + 2`, which is proved sufficient
(the final fuel step still evaluates the loop condition and takes the exit
branch). -/
def angleLoop (step : ℚ) : ℕ → ℚ → List ℚ
  | 0, _ => []
  | fuel + 1, angle => if angle ≤ 360 then angle :: angleLoop step fuel (angle + step) else []

/-- The exact-arithmetic sampled angle sequence for a run with `segments`
drawing segments: `step = 360.0 / segments` (source line 183), starting
angle `0.0` (source line 216).  See `sampleAnglesFloat` for the faithful
binary64 sequence the program computes. -/
def sampleAngles (segments : ℕ) : List ℚ :=
  angleLoop (360 / (segments : ℚ)) (segments + 2) 0

/-- Round a rational to an integer, ties to even (the IEEE default
tie-breaking rule). -/
def roundHalfEven (y : ℚ) : ℤ :=
  if y - ⌊y⌋ < 1/2 then ⌊y⌋
  else if (1 : ℚ)/2 < y - ⌊y⌋ then ⌊y⌋ + 1
  else if 2 ∣ ⌊y⌋ then ⌊y⌋ else ⌊y⌋ + 1

/-- The binade exponent of a positive rational: the `e` with
`2^e ≤ x < 2^(e+1)`, found by repeated halving or doubling.  The fuel 80
used below covers every magnitude in `[2^(-80), 2^80]`, far beyond any
value the sampling loop manipulates. -/
def binadeExp : ℕ → ℚ → ℤ
  | 0, _ => 0
  | fuel + 1, x =>
    if 1 ≤ x ∧ x < 2 then 0
    else (if 2 ≤ x then (1 : ℤ) else -1) + binadeExp fuel (if 2 ≤ x then x / 2 else x * 2)

/-- Correct rounding of a rational to IEEE binary64: round to the nearest
multiple of `2^(e-52)` where `e` is the binade exponent, ties to even.
(Normal range only, which covers every value in this development; overflow
and subnormals are out of the loop's reach.) -/
def fl (x : ℚ) : ℚ :=
  if x = 0 then 0
  else if 0 < x then
    (roundHalfEven (x / (2 : ℚ) ^ (binadeExp 80 x - 52)) : ℚ) *
      (2 : ℚ) ^ (binadeExp 80 x - 52)
  else
    -((roundHalfEven ((-x) / (2 : ℚ) ^ (binadeExp 80 (-x) - 52)) : ℚ) *
      (2 : ℚ) ^ (binadeExp 80 (-x) - 52))

/-- The `while angle <= 360.0` loop of source lines 216-225 over IEEE
binary64 doubles: each `angle += step` (line 225) is a correctly rounded
binary64 addition (the operands are exact doubles, so the exact sum
followed by `fl` is the IEEE semantics); the comparison with the exact
double `360.0` is exact. -/
def angleLoopFloat (step : ℚ) : ℕ → ℚ → List ℚ
  | 0, _ => []
  | fuel + 1, angle =>
    if angle ≤ 360 then angle :: angleLoopFloat step fuel (fl (angle + step)) else []

/-- The sampled angle sequence the program actually computes:
`step = 360.0 / segments` (source line 183) is a correctly rounded binary64
division, and the loop accumulates rounded sums from `0.0`. -/
def sampleAnglesFloat (segments : ℕ) : List ℚ :=
  angleLoopFloat (fl (360 / (segments : ℚ))) (segments + 2) 0

/-- Sequential accumulation of the per-angle solver results (`pts.append`
at source line 224); a failing call makes the whole traversal fail, exactly
as an uncaught Python exception would leave the loop. -/
def mapOption {α γ : Type} (f : α → Option γ) : List α → Option (List γ)
  | [] => some []
  | a :: t =>
    match f a with
    | none => none
    | some b => (mapOption f t).map (fun r => b :: r)

/-- Whether consecutive points of a ring include a raw longitude jump
greater than 180 degrees (an antimeridian crossing). -/
def crossesIDL (pts : List (ℚ × ℚ)) : Bool :=
  (pts.zip pts.tail).any (fun pr => decide (180 < |pr.1.1 - pr.2.1|))

/-- Shift a point with negative longitude to the positive side of the
antimeridian; latitude unchanged. -/
def shiftNeg (p : ℚ × ℚ) : ℚ × ℚ := if p.1 < 0 then (p.1 + 360, p.2) else p

/-- Modelled from the spec: the function `makeIdlCrossingsPositive` called
at source line 227 is defined in the repository's `utils` module, which is
not among the provided source files.  Following spec section 4.4, it
detects a discontinuous jump of more than 180 degrees of longitude between
consecutive points and, when one is present, renormalizes the ring to the
positive side of the crossing by shifting every negative longitude by +360
degrees (latitudes unchanged, point count and order preserved). -/
def makeIdlCrossingsPositive (pts : List (ℚ × ℚ)) : List (ℚ × ℚ) :=
  if crossesIDL pts then pts.map shiftNeg else pts

/-- The anchor point used for the geodesic calls: the feature's point,
reprojected to EPSG:4326 when the source CRS differs (source lines
210-215). -/
def anchor (cfg : Config) (f : Feature) : ℚ × ℚ :=
  if cfg.needTransform then cfg.to4326 (f.ptx, f.pty) else (f.ptx, f.pty)

/-- Processing of one feature (the body of the `for` loop, source lines
189-243), parametric in the per-angle sample computation `samp` (the
trigonometry of lines 218-222, of abstract result type `β`) and the
geodesic direct solver `S` (the `geod.Direct` call of line 223, which may
fail).  `Except.ok none` is the parameter-error path (`except: numbad += 1;
continue`); `Except.error ()` is an uncaught solver exception aborting the
run; `Except.ok (some o)` is a feature written to the sink. -/
def processFeature {β : Type} (samp : ℚ → ℤ → ℚ → ℚ → β)
    (S : ℚ × ℚ → β → Option (ℚ × ℚ)) (cfg : Config) (f : Feature) :
    Except Unit (Option OutFeature) :=
  match resolveParams cfg f with
  | none => Except.ok none
  | some p =>
    match mapOption (fun angle => S (anchor cfg f) (samp p.r p.lobes2 p.sangle angle))
        (sampleAngles cfg.segments) with
    | none => Except.error ()
    | some pts =>
      Except.ok (some
        ⟨cfg.shapetype == 0,
          (if cfg.needTransform then (makeIdlCrossingsPositive pts).map cfg.toSinkCrs
           else makeIdlCrossingsPositive pts),
          f.attrs ++ (if cfg.export_geom then [f.ptx, f.pty] else [])⟩)

/-- The feature loop of `processAlgorithm` (source lines 186-247):
`isCanceled` is the cooperative cancellation signal checked once before
each feature, the `ℕ` argument the running `enumerate` index.  The result
collects, in input order, the features written to the sink together with
the final bad-feature counter `numbad`; `Except.error` is a run aborted by
an uncaught exception. -/
def processAlgorithm {β : Type} (samp : ℚ → ℤ → ℚ → ℚ → β)
    (S : ℚ × ℚ → β → Option (ℚ × ℚ)) (cfg : Config) (isCanceled : ℕ → Bool) :
    ℕ → List Feature → Except Unit (List OutFeature × ℕ)
  | _, [] => Except.ok ([], 0)
  | index, f :: fs =>
    if isCanceled index then Except.ok ([], 0)
    else
      match processFeature samp S cfg f with
      | Except.error e => Except.error e
      | Except.ok none =>
        Except.map (fun res => (res.1, res.2 + 1))
          (processAlgorithm samp S cfg isCanceled (index + 1) fs)
      | Except.ok (some o) =>
        Except.map (fun res => (o :: res.1, res.2))
          (processAlgorithm samp S cfg isCanceled (index + 1) fs)

/-- The never-canceled feedback signal. -/
def noCancel : ℕ → Bool := fun _ => false

instance instDecEqExcept {ε α : Type} [DecidableEq ε] [DecidableEq α] :
    DecidableEq (Except ε α) := fun a b =>
  match a, b with
  | Except.ok x, Except.ok y =>
    if h : x = y then isTrue (by rw [h])
    else isFalse (fun hc => h (by cases hc; rfl))
  | Except.ok _, Except.error _ => isFalse (fun hc => Except.noConfusion hc)
  | Except.error _, Except.ok _ => isFalse (fun hc => Except.noConfusion hc)
  | Except.error e, Except.error e' =>
    if h : e = e' then isTrue (by rw [h])
    else isFalse (fun hc => h (by cases hc; rfl))

/-! ### Real-valued sampling layer (source lines 216-225) -/

/-- `math.atan2(y, x)`: the argument of the point `(x, y)` of the plane. -/
noncomputable def atan2 (y x : ℝ) : ℝ := Complex.arg ⟨x, y⟩

/-- `math.radians`. -/
noncomputable def radians (d : ℝ) : ℝ := d * Real.pi / 180

/-- `math.degrees`. -/
noncomputable def degrees (v : ℝ) : ℝ := v * 180 / Real.pi

/-- Transliteration of the inner loop body of source lines 218-222: from
the loop angle (in degrees) to the pair `(a2, dist)` handed to
`geod.Direct`. -/
noncomputable def sampleBearingDist (r : ℝ) (lobes2 : ℤ) (sangle angle : ℝ) : ℝ × ℝ :=
  let a := radians angle
  let x := r * ((lobes2 : ℝ) + 1) * Real.cos a - r * Real.cos (((lobes2 : ℝ) + 1) * a)
  let y := r * ((lobes2 : ℝ) + 1) * Real.sin a - r * Real.sin (((lobes2 : ℝ) + 1) * a)
  (degrees (atan2 y x) + sangle, Real.sqrt (x * x + y * y))

/-- The spec's local offset `x = r*(lobes+1)*cos(θ) - r*cos((lobes+1)*θ)`,
with `θ` in radians. -/
noncomputable def specLocalX (r lobes θ : ℝ) : ℝ :=
  r * (lobes + 1) * Real.cos θ - r * Real.cos ((lobes + 1) * θ)

/-- The spec's local offset `y = r*(lobes+1)*sin(θ) - r*sin((lobes+1)*θ)`,
with `θ` in radians. -/
noncomputable def specLocalY (r lobes θ : ℝ) : ℝ :=
  r * (lobes + 1) * Real.sin θ - r * Real.sin ((lobes + 1) * θ)

/-- The spec's `bearing = atan2(y, x) in degrees + startingAngle`. -/
noncomputable def specBearing (r lobes sangle θ : ℝ) : ℝ :=
  degrees (atan2 (specLocalY r lobes θ) (specLocalX r lobes θ)) + sangle

/-- The spec's `distance = sqrt(x² + y²)`. -/
noncomputable def specDistance (r lobes θ : ℝ) : ℝ :=
  Real.sqrt (specLocalX r lobes θ ^ 2 + specLocalY r lobes θ ^ 2)

/-! ### Concrete fixtures used by witnesses and counterexamples -/

/-- A trivial abstract per-angle sample: just the angle itself. -/
def sampQ : ℚ → ℤ → ℚ → ℚ → ℚ := fun _ _ _ angle => angle

/-- A solver that fails on every input. -/
def solverNone : ℚ × ℚ → ℚ → Option (ℚ × ℚ) := fun _ _ => none

/-- A solver that always succeeds, returning the anchor point. -/
def solverEcho : ℚ × ℚ → ℚ → Option (ℚ × ℚ) := fun pt _ => some pt

/-- A basic run configuration: polygon, no override columns, radius 40,
starting angle 0, 5 lobes, 4 segments, meters, no geometry export, source
CRS already EPSG:4326. -/
def cfg0 : Config := ⟨0, false, false, false, 40, 0, 5, 4, 1, false, false, id, id⟩

/-- `cfg0` with the lobes override column configured. -/
def cfgLobesCol : Config := ⟨0, true, false, false, 40, 0, 5, 4, 1, false, false, id, id⟩

/-- `cfg0` with every override column configured. -/
def cfgAllCols : Config := ⟨0, true, true, true, 40, 0, 5, 4, 1, false, false, id, id⟩

/-- `cfg0` with the starting-angle override column configured. -/
def cfgSangleCol : Config := ⟨0, false, true, false, 40, 0, 5, 4, 1, false, false, id, id⟩

/-- `cfg0` with geometry export enabled. -/
def cfgExport : Config := ⟨0, false, false, false, 40, 0, 5, 4, 1, true, false, id, id⟩

/-- A plain feature with no override values, anchored at the origin. -/
def feat0 : Feature := ⟨none, none, none, 0, 0, []⟩

/-- A feature whose lobes override parses to `0`. -/
def featLobes0 : Feature := ⟨some 0, none, none, 0, 0, []⟩

/-- A feature whose lobes override parses to `-2`. -/
def featLobesNeg2 : Feature := ⟨some (-2), none, none, 0, 0, []⟩

/-- A feature whose overrides all parse, equal to the `cfg0` defaults. -/
def featDefaults : Feature := ⟨some 5, some 0, some 40, 0, 0, []⟩

/-- A feature whose starting-angle override does not parse. -/
def featBadSangle : Feature := ⟨none, none, none, 0, 0, []⟩

/-- A feature anchored at `(3, 4)` with one attribute. -/
def featAnchor34 : Feature := ⟨none, none, none, 3, 4, [7]⟩

/-- A four-point ring that both crosses the antimeridian and straddles the
prime meridian. -/
def cexPts : List (ℚ × ℚ) := [(10, 0), (-10, 0), (-179, 0), (179, 0)]

/-- A two-point ring crossing the antimeridian. -/
def idlPts : List (ℚ × ℚ) := [(179, 5), (-179, 7)]

/-- A cancellation signal observed from the third feature on. -/
def cancelAt2 : ℕ → Bool := fun i => decide (2 ≤ i)

/-- The output of processing `feat0` under `cfg0` with `solverEcho`. -/
def outOrigin : OutFeature := ⟨true, [(0, 0), (0, 0), (0, 0), (0, 0), (0, 0)], []⟩

/-- The output of processing `featAnchor34` under `cfg0` with `solverEcho`. -/
def outAnchor34 : OutFeature := ⟨true, [(3, 4), (3, 4), (3, 4), (3, 4), (3, 4)], [7]⟩

/-- The output of processing `featAnchor34` under `cfgExport` with
`solverEcho`: the two native anchor coordinates are appended. -/
def outExport34 : OutFeature := ⟨true, [(3, 4), (3, 4), (3, 4), (3, 4), (3, 4)], [7, 3, 4]⟩

/-! ### Helper lemmas -/

theorem angleLoop_succ (step a : ℚ) (fuel : ℕ) :
    angleLoop step (fuel + 1) a =
      if a ≤ 360 then a :: angleLoop step fuel (a + step) else [] := rfl

/-- The fueled while-loop, started at the `k`-th multiple of the step with
fuel `m + 1`, visits exactly the multiples `k, k+1, …, n` of `360/n`; in
particular the fuel is never exhausted (the last fuel step evaluates the
loop condition and exits). -/
theorem angleLoop_spec (n : ℕ) (hn : 0 < n) :
    ∀ m k : ℕ, k + m = n + 1 →
      angleLoop (360 / (n : ℚ)) (m + 1) ((k : ℚ) * (360 / (n : ℚ))) =
        (List.range m).map (fun j => ((k + j : ℕ) : ℚ) * (360 / (n : ℚ))) := by
  have hn' : (0 : ℚ) < (n : ℚ) := by exact_mod_cast hn
  intro m
  induction m with
  | zero =>
    intro k hk
    have hk1 : k = n + 1 := by omega
    subst hk1
    have hgt : (360 : ℚ) < ((n + 1 : ℕ) : ℚ) * (360 / (n : ℚ)) := by
      push_cast
      rw [← mul_div_assoc, lt_div_iff hn']
      nlinarith
    rw [angleLoop_succ, if_neg (not_le.mpr hgt)]
    simp
  | succ m ih =>
    intro k hk
    have hkn : (k : ℚ) ≤ (n : ℚ) := by exact_mod_cast (by omega : k ≤ n)
    have hle : (k : ℚ) * (360 / (n : ℚ)) ≤ 360 := by
      rw [← mul_div_assoc, div_le_iff hn']
      nlinarith
    have hstep : (k : ℚ) * (360 / (n : ℚ)) + 360 / (n : ℚ) =
        ((k + 1 : ℕ) : ℚ) * (360 / (n : ℚ)) := by push_cast; ring
    rw [angleLoop_succ, if_pos hle, hstep, ih (k + 1) (by omega),
      List.range_succ_eq_map, List.map_cons, List.map_map]
    refine congrArg₂ List.cons ?_ ?_
    · push_cast; ring
    · apply List.map_congr_left
      intro j _
      simp only [Function.comp_apply]
      rw [show k + 1 + j = k + (j + 1) from by omega]

/-- The sampled angle sequence is exactly the `segments + 1` multiples of
the step, `0, step, …, 360`. -/
theorem sampleAngles_eq (n : ℕ) (hn : 0 < n) :
    sampleAngles n = (List.range (n + 1)).map (fun j : ℕ => (j : ℚ) * (360 / (n : ℚ))) := by
  have h := angleLoop_spec n hn (n + 1) 0 (by omega)
  simp only [Nat.cast_zero, zero_mul, Nat.zero_add] at h
  show angleLoop (360 / (n : ℚ)) ((n + 1) + 1) 0 = _
  exact h

/-- With a never-true cancellation signal, the loop result does not depend
on the starting `enumerate` index. -/
theorem processAlgorithm_index_irrelevant {β : Type} (samp : ℚ → ℤ → ℚ → ℚ → β)
    (S : ℚ × ℚ → β → Option (ℚ × ℚ)) (cfg : Config) :
    ∀ (fs : List Feature) (i j : ℕ),
      processAlgorithm samp S cfg noCancel i fs = processAlgorithm samp S cfg noCancel j fs := by
  intro fs
  induction fs with
  | nil => intro i j; rfl
  | cons f t ih =>
    intro i j
    simp only [processAlgorithm, noCancel]
    cases processFeature samp S cfg f with
    | error e => rfl
    | ok o =>
      cases o with
      | none => rw [ih (i + 1) (j + 1)]
      | some o => rw [ih (i + 1) (j + 1)]

/-- Without cancellation, every input feature is accounted for: the number
of emitted features plus the bad-feature counter equals the feature count. -/
theorem processAlgorithm_count {β : Type} (samp : ℚ → ℤ → ℚ → ℚ → β)
    (S : ℚ × ℚ → β → Option (ℚ × ℚ)) (cfg : Config) :
    ∀ (fs : List Feature) (i : ℕ) (outs : List OutFeature) (n : ℕ),
      processAlgorithm samp S cfg noCancel i fs = Except.ok (outs, n) →
      outs.length + n = fs.length := by
  intro fs
  induction fs with
  | nil =>
    intro i outs n h
    simp only [processAlgorithm] at h
    cases h
    simp
  | cons f t ih =>
    intro i outs n h
    simp only [processAlgorithm, noCancel, if_false, Bool.false_eq_true] at h
    cases hpf : processFeature samp S cfg f with
    | error e => rw [hpf] at h; cases h
    | ok o =>
      rw [hpf] at h
      cases o with
      | none =>
        cases hrec : processAlgorithm samp S cfg noCancel (i + 1) t with
        | error e => rw [hrec] at h; cases h
        | ok res =>
          rw [hrec] at h
          cases h
          have := ih (i + 1) res.1 res.2 (by rw [hrec])
          simp only [List.length_cons]
          omega
      | some o =>
        cases hrec : processAlgorithm samp S cfg noCancel (i + 1) t with
        | error e => rw [hrec] at h; cases h
        | ok res =>
          rw [hrec] at h
          cases h
          have := ih (i + 1) res.1 res.2 (by rw [hrec])
          simp only [List.length_cons]
          omega

/-! ### Claims -/

/-- C1: for every sampled angle (the loop variable, in degrees, converted
to the radian angle θ), the inner loop computes the local offsets
`x = r*(lobes+1)*cos(θ) - r*cos((lobes+1)*θ)` and
`y = r*(lobes+1)*sin(θ) - r*sin((lobes+1)*θ)`, and the pair handed to the
geodesic solver is `bearing = atan2(y, x)` in degrees plus the starting
angle, and `distance = sqrt(x² + y²)`. -/
theorem sample_pair_matches_spec (r : ℝ) (lobes2 : ℤ) (sangle angle : ℝ) :
    sampleBearingDist r lobes2 sangle angle =
      (specBearing r (lobes2 : ℝ) sangle (radians angle),
       specDistance r (lobes2 : ℝ) (radians angle)) := by
  simp only [sampleBearingDist, specBearing, specDistance, specLocalX, specLocalY,
    Prod.mk.injEq]
  refine ⟨trivial, ?_⟩
  congr 1
  ring

/-- The idealized sampler property the spec states (and section 9 directs
implementers to guarantee): in exact arithmetic the angle loop with step
`360/segments` visits exactly `floor(360/(360/segments)) + 1 =
segments + 1` angles, the first being 0 and the last 360, and the sample
pairs at the first and last angle coincide, closing the curve.  The
floating-point program violates this; see the binary64 trace at
`segments = 7` further below. -/
theorem sampler_count_and_closure (segments : ℕ) (lobes : ℤ) (r sangle : ℝ)
    (hseg : 4 ≤ segments) (hlobes : 1 ≤ lobes) :
    (sampleAngles segments).length = segments + 1 ∧
    ⌊(360 : ℚ) / ((360 : ℚ) / (segments : ℚ))⌋ = (segments : ℤ) ∧
    (sampleAngles segments).head? = some 0 ∧
    (sampleAngles segments).getLast? = some 360 ∧
    sampleBearingDist r lobes sangle 0 = sampleBearingDist r lobes sangle 360 := by
  have hn : 0 < segments := by omega
  have hn' : (0 : ℚ) < (segments : ℚ) := by exact_mod_cast hn
  have hE := sampleAngles_eq segments hn
  refine ⟨?_, ?_, ?_, ?_, ?_⟩
  · rw [hE, List.length_map, List.length_range]
  · have hq : (360 : ℚ) / ((360 : ℚ) / (segments : ℚ)) = (segments : ℚ) := by
      field_simp
    rw [hq, Int.floor_natCast]
  · rw [hE, List.range_succ_eq_map, List.map_cons, List.head?_cons]
    norm_num
  · rw [hE, List.range_succ, List.map_append, List.map_cons, List.map_nil,
      List.getLast?_concat]
    have hlast : ((segments : ℚ)) * (360 / (segments : ℚ)) = 360 := by
      field_simp
    rw [hlast]
  · have h0 : radians 0 = 0 := by simp [radians]
    have h360 : radians 360 = 2 * Real.pi := by unfold radians; ring
    have hcn : Real.cos (((lobes : ℝ) + 1) * (2 * Real.pi)) = 1 := by
      have h := Real.cos_int_mul_two_pi (lobes + 1)
      push_cast at h
      exact h
    have hsn : Real.sin (((lobes : ℝ) + 1) * (2 * Real.pi)) = 0 := by
      have h := Real.sin_int_mul_pi (2 * (lobes + 1))
      push_cast at h
      rw [show ((lobes : ℝ) + 1) * (2 * Real.pi) = 2 * ((lobes : ℝ) + 1) * Real.pi from by ring]
      exact h
    simp only [sampleBearingDist, h0, h360, mul_zero, Real.cos_zero, Real.sin_zero,
      Real.cos_two_pi, Real.sin_two_pi, hcn, hsn]

theorem sampler_count_and_closure_witness :
    (sampleAngles 4).length = 4 + 1 ∧
    ⌊(360 : ℚ) / ((360 : ℚ) / ((4 : ℕ) : ℚ))⌋ = ((4 : ℕ) : ℤ) ∧
    (sampleAngles 4).head? = some 0 ∧
    (sampleAngles 4).getLast? = some 360 ∧
    sampleBearingDist 1 1 0 0 = sampleBearingDist 1 1 0 360 :=
  sampler_count_and_closure 4 1 1 0 (by norm_num) (by norm_num)

/-- The binary64 rounding of `step = 360.0 / 7` (source line 183). -/
theorem fl_step7 : fl ((360 : ℚ) / 7) = 3618963986279863 / 70368744177664 := by
  norm_num [fl, binadeExp, roundHalfEven]

/-- `0.0 + step` is the exact double `step`; rounding keeps it. -/
theorem fl_trace7_1 : fl ((3618963986279863 : ℚ) / 70368744177664) =
    3618963986279863 / 70368744177664 := by
  norm_num [fl, binadeExp, roundHalfEven]

/-- `step + step` is exactly representable; rounding keeps it. -/
theorem fl_trace7_2 : fl ((3618963986279863 : ℚ) / 35184372088832) =
    3618963986279863 / 35184372088832 := by
  norm_num [fl, binadeExp, roundHalfEven]

/-- The third accumulated angle rounds down on a tie (ties to even). -/
theorem fl_trace7_3 : fl ((10856891958839589 : ℚ) / 70368744177664) =
    2714222989709897 / 17592186044416 := by
  norm_num [fl, binadeExp, roundHalfEven]

/-- The fourth accumulated angle rounds up on a tie (ties to even). -/
theorem fl_trace7_4 : fl ((14475855945119451 : ℚ) / 70368744177664) =
    3618963986279863 / 17592186044416 := by
  norm_num [fl, binadeExp, roundHalfEven]

/-- The fifth accumulated angle rounds up. -/
theorem fl_trace7_5 : fl ((18094819931399315 : ℚ) / 70368744177664) =
    4523704982849829 / 17592186044416 := by
  norm_num [fl, binadeExp, roundHalfEven]

/-- The sixth accumulated angle rounds up. -/
theorem fl_trace7_6 : fl ((21713783917679179 : ℚ) / 70368744177664) =
    5428445979419795 / 17592186044416 := by
  norm_num [fl, binadeExp, roundHalfEven]

/-- The seventh accumulated angle rounds up to just above 360, so the loop
condition `angle <= 360.0` fails and no closing sample is emitted. -/
theorem fl_trace7_7 : fl ((25332747903959043 : ℚ) / 70368744177664) =
    6333186975989761 / 17592186044416 := by
  norm_num [fl, binadeExp, roundHalfEven]

/-- C3: the claimed guarantee - `floor(360/(360/segments)) + 1 = segments + 1`
samples with coinciding first and last - is the spec's stated intent
(section 9 directs implementers to ensure it), but the program's IEEE
double loop violates it.  At `segments = 7` the correctly rounded binary64
accumulation of `angle += step` produces exactly 7 samples, not 8: the
last sample is `5428445979419795/2^44 ≈ 308.571°`, far from 360, and the
next accumulated angle lands just above `360.0`, so the loop exits without
a closing sample and the first and last samples do not coincide. -/
theorem float_sampler_seven_not_closed :
    sampleAnglesFloat 7 =
      [0, 3618963986279863 / 70368744177664, 3618963986279863 / 35184372088832,
       2714222989709897 / 17592186044416, 3618963986279863 / 17592186044416,
       4523704982849829 / 17592186044416, 5428445979419795 / 17592186044416] ∧
    (sampleAnglesFloat 7).length = 7 ∧
    ⌊(360 : ℚ) / ((360 : ℚ) / (7 : ℚ))⌋ + 1 = 8 ∧
    (sampleAnglesFloat 7).getLast? = some (5428445979419795 / 17592186044416) ∧
    (5428445979419795 : ℚ) / 17592186044416 < 360 ∧
    360 < fl ((5428445979419795 : ℚ) / 17592186044416 +
      3618963986279863 / 70368744177664) := by
  have hlist : sampleAnglesFloat 7 =
      [0, 3618963986279863 / 70368744177664, 3618963986279863 / 35184372088832,
       2714222989709897 / 17592186044416, 3618963986279863 / 17592186044416,
       4523704982849829 / 17592186044416, 5428445979419795 / 17592186044416] := by
    norm_num [sampleAnglesFloat, angleLoopFloat, fl_step7, fl_trace7_1, fl_trace7_2,
      fl_trace7_3, fl_trace7_4, fl_trace7_5, fl_trace7_6, fl_trace7_7]
  have hsum : (5428445979419795 : ℚ) / 17592186044416 + 3618963986279863 / 70368744177664 =
      25332747903959043 / 70368744177664 := by norm_num
  refine ⟨hlist, by rw [hlist]; rfl, by norm_num, by rw [hlist]; rfl, by norm_num, ?_⟩
  rw [hsum, fl_trace7_7]
  norm_num

/-- C2 counterexample: with a solver that fails and two features whose
parameters resolve, the run is aborted (`Except.error`); the failure is not
treated like a parameter error, which would have produced
`Except.ok ([], 2)` (both features skipped and counted). -/
theorem geodesic_failure_abort_cex :
    processAlgorithm sampQ solverNone cfg0 noCancel 0 [feat0, feat0] = Except.error () ∧
    processAlgorithm sampQ solverNone cfg0 noCancel 0 [feat0, feat0] ≠
      Except.ok ([], 2) := by
  have h : processAlgorithm sampQ solverNone cfg0 noCancel 0 [feat0, feat0] =
      Except.error () := by
    norm_num [processAlgorithm, processFeature, resolveParams, cfg0, feat0,
      Config.radiusM, Config.r2, sampleAngles, angleLoop, mapOption, sampQ, solverNone,
      noCancel, anchor]
  exact ⟨h, by rw [h]; exact fun hc => Except.noConfusion hc⟩

/-- C2 (amended): a geodesic solver failure is not caught by the
per-feature exception handler — it aborts the whole run: with a failing
solver, any feature whose parameters resolve makes `processAlgorithm`
return `Except.error`, so the feature is not skipped, nothing is counted,
and no subsequent feature is processed. -/
theorem geodesic_failure_aborts_run {β : Type} (samp : ℚ → ℤ → ℚ → ℚ → β)
    (S : ℚ × ℚ → β → Option (ℚ × ℚ)) (cfg : Config) (f : Feature) (fs : List Feature)
    (i : ℕ) (hS : ∀ pt b, S pt b = none) (hres : (resolveParams cfg f).isSome = true) :
    processAlgorithm samp S cfg noCancel i (f :: fs) = Except.error () := by
  obtain ⟨p, hp⟩ := Option.isSome_iff_exists.mp hres
  have hsa : sampleAngles cfg.segments =
      0 :: angleLoop (360 / (cfg.segments : ℚ)) (cfg.segments + 1)
        (0 + 360 / (cfg.segments : ℚ)) := by
    show angleLoop _ ((cfg.segments + 1) + 1) 0 = _
    rw [angleLoop_succ, if_pos (by norm_num)]
  have hpf : processFeature samp S cfg f = Except.error () := by
    simp only [processFeature, hp, hsa, mapOption, hS]
  simp only [processAlgorithm, noCancel, Bool.false_eq_true, if_false, hpf]

theorem geodesic_failure_aborts_run_witness :
    processAlgorithm sampQ solverNone cfg0 noCancel 0 [featAnchor34] = Except.error () :=
  geodesic_failure_aborts_run sampQ solverNone cfg0 featAnchor34 [] 0
    (fun _ _ => rfl)
    (by norm_num [resolveParams, cfg0, featAnchor34, Config.radiusM, Config.r2])

/-- C5: a feature whose configured override field fails to parse is
excluded from the output and increments the rejection counter by exactly
one, leaving the processing of all other features unaffected: removing the
bad feature from the input yields the same emitted features and a counter
smaller by one. -/
theorem unparsable_override_skip {β : Type} (samp : ℚ → ℤ → ℚ → ℚ → β)
    (S : ℚ × ℚ → β → Option (ℚ × ℚ)) (cfg : Config) (fbad : Feature)
    (fs1 fs2 : List Feature) (i : ℕ) (hbad : resolveParams cfg fbad = none) :
    processAlgorithm samp S cfg noCancel i (fs1 ++ fbad :: fs2) =
      Except.map (fun res => (res.1, res.2 + 1))
        (processAlgorithm samp S cfg noCancel i (fs1 ++ fs2)) := by
  induction fs1 generalizing i with
  | nil =>
    simp only [List.nil_append, processAlgorithm, noCancel, Bool.false_eq_true, if_false,
      processFeature, hbad]
    rw [processAlgorithm_index_irrelevant samp S cfg fs2 (i + 1) i]
  | cons g t ih =>
    simp only [List.cons_append, processAlgorithm, noCancel, Bool.false_eq_true, if_false]
    cases hpf : processFeature samp S cfg g with
    | error e => simp [Except.map]
    | ok o =>
      cases o with
      | none =>
        simp only [List.append_eq]
        rw [ih (i + 1)]
      | some o =>
        simp only [List.append_eq]
        rw [ih (i + 1)]
        cases hX : processAlgorithm samp S cfg noCancel (i + 1) (t ++ fs2) with
        | error e => simp [Except.map]
        | ok res => simp [Except.map]

theorem unparsable_override_skip_witness :
    processAlgorithm sampQ solverEcho cfgSangleCol noCancel 0
        ([featAnchor34] ++ featBadSangle :: [featAnchor34]) =
      Except.map (fun res => (res.1, res.2 + 1))
        (processAlgorithm sampQ solverEcho cfgSangleCol noCancel 0
          ([featAnchor34] ++ [featAnchor34])) :=
  unparsable_override_skip sampQ solverEcho cfgSangleCol featBadSangle
    [featAnchor34] [featAnchor34] 0
    (by norm_num [resolveParams, cfgSangleCol, featBadSangle])

/-- Cancellation observed at index `N` (counted from start index `i`)
truncates the run to the first `N` features. -/
theorem processAlgorithm_cancel_take {β : Type} (samp : ℚ → ℤ → ℚ → ℚ → β)
    (S : ℚ × ℚ → β → Option (ℚ × ℚ)) (cfg : Config) (cancel : ℕ → Bool) :
    ∀ (fs : List Feature) (N i : ℕ),
      (∀ j, j < N → cancel (i + j) = false) → cancel (i + N) = true →
      processAlgorithm samp S cfg cancel i fs =
        processAlgorithm samp S cfg noCancel i (fs.take N) := by
  intro fs
  induction fs with
  | nil =>
    intro N i _ _
    rw [List.take_nil]
    simp only [processAlgorithm]
  | cons f t ih =>
    intro N i hb ha
    cases N with
    | zero =>
      have ha' : cancel i = true := by simpa using ha
      simp only [List.take_zero, processAlgorithm, ha', if_true]
    | succ N =>
      have h0 : cancel i = false := by simpa using hb 0 (by omega)
      simp only [List.take_succ_cons, processAlgorithm, h0, noCancel, Bool.false_eq_true,
        if_false]
      have hrec := ih N (i + 1)
        (fun j hj => by
          have h := hb (j + 1) (by omega)
          rwa [show i + (j + 1) = i + 1 + j from by omega] at h)
        (by
          have h := ha
          rwa [show i + (N + 1) = i + 1 + N from by omega] at h)
      rw [hrec]

/-- C9: the cancellation signal is checked once before each feature; if it
is first observed at feature index `N`, the loop stops there and the run's
result is exactly that of processing the first `N` features without
cancellation — only whole features already written appear, and the emitted
features plus the rejected ones account exactly for the `min N M` features
processed. -/
theorem cancellation_stops_loop {β : Type} (samp : ℚ → ℤ → ℚ → ℚ → β)
    (S : ℚ × ℚ → β → Option (ℚ × ℚ)) (cfg : Config) (cancel : ℕ → Bool) (N : ℕ)
    (fs : List Feature) (outs : List OutFeature) (n : ℕ)
    (hbefore : ∀ j, j < N → cancel j = false) (hat : cancel N = true)
    (hres : processAlgorithm samp S cfg cancel 0 fs = Except.ok (outs, n)) :
    processAlgorithm samp S cfg cancel 0 fs =
      processAlgorithm samp S cfg noCancel 0 (fs.take N) ∧
    outs.length + n = min N fs.length := by
  have h := processAlgorithm_cancel_take samp S cfg cancel fs N 0
    (fun j hj => by simpa using hbefore j hj) (by simpa using hat)
  refine ⟨h, ?_⟩
  have hc := processAlgorithm_count samp S cfg (fs.take N) 0 outs n (by rw [← h]; exact hres)
  rw [List.length_take] at hc
  exact hc

theorem cancellation_stops_loop_witness :
    processAlgorithm sampQ solverEcho cfg0 cancelAt2 0 [feat0, featAnchor34, feat0] =
      processAlgorithm sampQ solverEcho cfg0 noCancel 0
        ([feat0, featAnchor34, feat0].take 2) ∧
    ([outOrigin, outAnchor34] : List OutFeature).length + 0 =
      min 2 ([feat0, featAnchor34, feat0] : List Feature).length :=
  cancellation_stops_loop sampQ solverEcho cfg0 cancelAt2 2 [feat0, featAnchor34, feat0]
    [outOrigin, outAnchor34] 0
    (by decide) (by decide)
    (by norm_num [processAlgorithm, processFeature, resolveParams, cfg0, feat0,
      featAnchor34, Config.radiusM, Config.r2, sampleAngles, angleLoop, mapOption, sampQ,
      solverEcho, cancelAt2, anchor, makeIdlCrossingsPositive, crossesIDL, shiftNeg,
      Except.map, outOrigin, outAnchor34])

/-- C10: a lobes override parsing to `-2` makes the scale-radius division
`radius2 / (lobes2 + 2.0)` divide by zero; since that division sits inside
the per-feature try block, parameter resolution fails, and the feature is
skipped and counted instead of crashing the run. -/
theorem lobes_minus_two_division_guarded {β : Type} (samp : ℚ → ℤ → ℚ → ℚ → β)
    (S : ℚ × ℚ → β → Option (ℚ × ℚ)) (cfg : Config) (f : Feature) (fs : List Feature)
    (i : ℕ) (hcol : cfg.lobescol = true) (hval : f.lobesVal = some (-2)) :
    resolveParams cfg f = none ∧
    processAlgorithm samp S cfg noCancel i (f :: fs) =
      Except.map (fun res => (res.1, res.2 + 1))
        (processAlgorithm samp S cfg noCancel i fs) := by
  have hnone : resolveParams cfg f = none := by
    rcases hs : (if cfg.startanglecol then f.sangleVal else some cfg.startAngle) with _ | s
    · simp [resolveParams, hs]
    · rcases hr : (if cfg.radiuscol then f.radiusVal.map (fun v => v * cfg.measureFactor)
          else some cfg.radiusM) with _ | rad
      · simp [resolveParams, hs, hr]
      · norm_num [resolveParams, hs, hr, hcol, hval]
  refine ⟨hnone, ?_⟩
  simp only [processAlgorithm, noCancel, Bool.false_eq_true, if_false,
    processFeature, hnone]
  rw [processAlgorithm_index_irrelevant samp S cfg fs (i + 1) i]

theorem lobes_minus_two_division_guarded_witness :
    resolveParams cfgLobesCol featLobesNeg2 = none ∧
    processAlgorithm sampQ solverEcho cfgLobesCol noCancel 0 (featLobesNeg2 :: [feat0]) =
      Except.map (fun res => (res.1, res.2 + 1))
        (processAlgorithm sampQ solverEcho cfgLobesCol noCancel 0 [feat0]) :=
  lobes_minus_two_division_guarded sampQ solverEcho cfgLobesCol featLobesNeg2 [feat0] 0
    rfl rfl

/-- C4 counterexample: a feature whose lobes override parses to the
integer `0` (which is `< 1`) is not rejected: its parameters resolve and
the feature is processed and emitted, with the bad-feature counter left at
zero. -/
theorem lobes_zero_processed_cex :
    resolveParams cfgLobesCol featLobes0 = some ⟨0, 0, 40, 20⟩ ∧
    processAlgorithm sampQ solverEcho cfgLobesCol noCancel 0 [featLobes0] =
      Except.ok ([⟨true, [(0, 0), (0, 0), (0, 0), (0, 0), (0, 0)], []⟩], 0) := by
  constructor
  · norm_num [resolveParams, cfgLobesCol, featLobes0, Config.radiusM, Config.r2]
  · norm_num [processAlgorithm, processFeature, resolveParams, cfgLobesCol, featLobes0,
      Config.radiusM, Config.r2, sampleAngles, angleLoop, mapOption, sampQ, solverEcho,
      noCancel, anchor, makeIdlCrossingsPositive, crossesIDL, shiftNeg, Except.map]

/-- C4 (amended): when no lobes override column is configured, the
resolved lobe count is the run default, which the parameter declaration
constrains to be at least 1; but a configured override value is only
rejected when it fails integer parsing (or equals `-2`, which raises a
caught division by zero): any other parsed integer, including values below
1, is accepted and processed. -/
theorem lobes_override_acceptance (cfg : Config) (f : Feature) (v : ℤ) (p : Params)
    (hdef : 1 ≤ cfg.lobes)
    (hsang : cfg.startanglecol = true → f.sangleVal.isSome = true)
    (hrad : cfg.radiuscol = true → f.radiusVal.isSome = true) :
    (cfg.lobescol = false → p ∈ resolveParams cfg f →
      p.lobes2 = cfg.lobes ∧ 1 ≤ p.lobes2) ∧
    (cfg.lobescol = true → f.lobesVal = some v → v ≠ -2 →
      (resolveParams cfg f).isSome = true) := by
  constructor
  · intro hcol hp
    have hne : ((cfg.lobes : ℚ) + 2) ≠ 0 := by
      have h1 : (1 : ℚ) ≤ (cfg.lobes : ℚ) := by exact_mod_cast hdef
      intro hz; linarith
    rcases hs : (if cfg.startanglecol then f.sangleVal else some cfg.startAngle) with _ | s
    · simp [resolveParams, hs] at hp
    · cases hrc : cfg.radiuscol with
      | false =>
        simp [resolveParams, hs, hcol, hrc] at hp
        rw [← hp]
        exact ⟨rfl, hdef⟩
      | true =>
        rcases hrv : f.radiusVal with _ | rv
        · simp [resolveParams, hs, hcol, hrc, hrv] at hp
        · simp [resolveParams, hs, hcol, hrc, hrv, hne] at hp
          rw [← hp]
          exact ⟨rfl, hdef⟩
  · intro hcol hv hne2
    have hsome : ∃ s, (if cfg.startanglecol then f.sangleVal else some cfg.startAngle)
        = some s := by
      cases hsc : cfg.startanglecol with
      | false => exact ⟨cfg.startAngle, by simp⟩
      | true =>
        obtain ⟨s, hs'⟩ := Option.isSome_iff_exists.mp (hsang hsc)
        exact ⟨s, by simp [hs']⟩
    obtain ⟨s, hs⟩ := hsome
    have hrsome : ∃ rad, (if cfg.radiuscol then f.radiusVal.map (fun w => w * cfg.measureFactor)
        else some cfg.radiusM) = some rad := by
      cases hrc : cfg.radiuscol with
      | false => exact ⟨cfg.radiusM, by simp⟩
      | true =>
        obtain ⟨rv, hrv⟩ := Option.isSome_iff_exists.mp (hrad hrc)
        exact ⟨rv * cfg.measureFactor, by simp [hrv]⟩
    obtain ⟨rad, hr⟩ := hrsome
    have hguard : ¬ ((v : ℚ) + 2 = 0) := by
      intro hz
      apply hne2
      have hq : (v : ℚ) = ((-2 : ℤ) : ℚ) := by push_cast; linarith
      exact_mod_cast hq
    simp [resolveParams, hs, hr, hcol, hv, hguard]

theorem lobes_override_acceptance_witness :
    (cfgLobesCol.lobescol = false →
      (⟨0, 0, 40, 20⟩ : Params) ∈ resolveParams cfgLobesCol featLobes0 →
      (⟨0, 0, 40, 20⟩ : Params).lobes2 = cfgLobesCol.lobes ∧
        1 ≤ (⟨0, 0, 40, 20⟩ : Params).lobes2) ∧
    (cfgLobesCol.lobescol = true → featLobes0.lobesVal = some 0 → (0 : ℤ) ≠ -2 →
      (resolveParams cfgLobesCol featLobes0).isSome = true) :=
  lobes_override_acceptance cfgLobesCol featLobes0 0 ⟨0, 0, 40, 20⟩
    (by norm_num [cfgLobesCol]) (by simp [cfgLobesCol]) (by simp [cfgLobesCol])

/-- C6: for every feature whose effective lobes and radius equal the run
defaults — whether taken from the defaults or from override fields holding
the default values — the scale radius resolved for sampling equals the
run-level precomputed `r2 = radius * measureFactor / (lobes + 2)`; the
per-feature recomputation path and the precomputed path agree. -/
theorem scale_radius_agree (cfg : Config) (f : Feature) (p : Params)
    (hdef : 1 ≤ cfg.lobes)
    (hl : cfg.lobescol = true → f.lobesVal = some cfg.lobes)
    (hr : cfg.radiuscol = true → f.radiusVal = some cfg.radius)
    (hp : p ∈ resolveParams cfg f) :
    p.r = cfg.r2 ∧ cfg.r2 = cfg.radius * cfg.measureFactor / ((cfg.lobes : ℚ) + 2) := by
  have hne : ((cfg.lobes : ℚ) + 2) ≠ 0 := by
    have h1 : (1 : ℚ) ≤ (cfg.lobes : ℚ) := by exact_mod_cast hdef
    intro hz; linarith
  refine ⟨?_, rfl⟩
  rcases hs : (if cfg.startanglecol then f.sangleVal else some cfg.startAngle) with _ | s
  · simp [resolveParams, hs] at hp
  · cases hlc : cfg.lobescol with
    | false =>
      cases hrc : cfg.radiuscol with
      | false =>
        simp [resolveParams, hs, hlc, hrc] at hp
        rw [← hp]
      | true =>
        simp [resolveParams, hs, hlc, hrc, hr hrc, hne] at hp
        rw [← hp]
        simp [Config.r2, Config.radiusM]
    | true =>
      cases hrc : cfg.radiuscol with
      | false =>
        simp [resolveParams, hs, hlc, hrc, hl hlc, hne] at hp
        rw [← hp]
        simp [Config.r2, Config.radiusM]
      | true =>
        simp [resolveParams, hs, hlc, hrc, hl hlc, hr hrc, hne] at hp
        rw [← hp]
        simp [Config.r2, Config.radiusM]

theorem scale_radius_agree_witness :
    (⟨0, 5, 40, 40 / 7⟩ : Params).r = cfgAllCols.r2 ∧
    cfgAllCols.r2 = cfgAllCols.radius * cfgAllCols.measureFactor /
      ((cfgAllCols.lobes : ℚ) + 2) :=
  scale_radius_agree cfgAllCols featDefaults ⟨0, 5, 40, 40 / 7⟩
    (by norm_num [cfgAllCols])
    (by simp [cfgAllCols, featDefaults])
    (by simp [cfgAllCols, featDefaults])
    (by norm_num [resolveParams, cfgAllCols, featDefaults, Config.radiusM, Config.r2,
      Option.mem_def])

/-- C7 counterexample: on a ring whose raw longitudes include a jump
greater than 180° (so normalization fires) but which also straddles the
prime meridian, the normalized ring still contains a jump greater than
180°, contradicting the claimed guarantee. -/
theorem idl_normalizer_jump_cex :
    crossesIDL cexPts = true ∧
    crossesIDL (makeIdlCrossingsPositive cexPts) = true := by
  norm_num [crossesIDL, makeIdlCrossingsPositive, cexPts, shiftNeg]

/-- C7 (amended): the normalizer always preserves point count, ordering
and latitudes, and changes a longitude only by a `+360` shift of a
negative value; the absence of remaining jumps greater than 180° holds
under the additional hypotheses that all raw longitudes lie in
`[-180, 180]` and that consecutive points of opposite longitude sign are
at least 180° apart (i.e. the ring does not also straddle the prime
meridian). -/
theorem idl_normalizer_amended (pts : List (ℚ × ℚ))
    (hin : ∀ p ∈ pts, -180 ≤ p.1 ∧ p.1 ≤ 180)
    (hmix : ∀ pr ∈ pts.zip pts.tail,
      ((pr.1.1 < 0 ∧ 0 ≤ pr.2.1) ∨ (0 ≤ pr.1.1 ∧ pr.2.1 < 0)) →
        180 ≤ |pr.1.1 - pr.2.1|) :
    (makeIdlCrossingsPositive pts).length = pts.length ∧
    List.Forall₂ (fun p q => q.2 = p.2 ∧ (q.1 = p.1 ∨ q.1 = p.1 + 360)) pts
      (makeIdlCrossingsPositive pts) ∧
    crossesIDL (makeIdlCrossingsPositive pts) = false := by
  unfold makeIdlCrossingsPositive
  cases hc : crossesIDL pts with
  | false =>
    simp only [hc, Bool.false_eq_true, if_false]
    exact ⟨trivial, List.forall₂_same.mpr (fun p _ => ⟨rfl, Or.inl rfl⟩), trivial⟩
  | true =>
    simp only [hc, if_true]
    refine ⟨by simp, ?_, ?_⟩
    · rw [List.forall₂_map_right_iff]
      refine List.forall₂_same.mpr ?_
      intro p _
      unfold shiftNeg
      by_cases h0 : p.1 < 0
      · rw [if_pos h0]; exact ⟨rfl, Or.inr rfl⟩
      · rw [if_neg h0]; exact ⟨rfl, Or.inl rfl⟩
    · unfold crossesIDL
      rw [List.any_eq_false]
      intro pr hpr
      rw [show (pts.map shiftNeg).tail = pts.tail.map shiftNeg from by simp,
        List.zip_map] at hpr
      obtain ⟨q, hq, rfl⟩ := List.mem_map.mp hpr
      obtain ⟨hq1, hq2t⟩ := List.of_mem_zip hq
      have hq2 := List.mem_of_mem_tail hq2t
      have ha := hin q.1 hq1
      have hb := hin q.2 hq2
      have hm := hmix q hq
      simp only [Prod.map_fst, Prod.map_snd, decide_eq_true_eq, not_lt]
      unfold shiftNeg
      rcases lt_or_le q.1.1 0 with h1 | h1 <;> rcases lt_or_le q.2.1 0 with h2 | h2
      · rw [if_pos h1, if_pos h2]
        show |q.1.1 + 360 - (q.2.1 + 360)| ≤ 180
        apply abs_le.mpr
        constructor <;> linarith [ha.1, ha.2, hb.1, hb.2]
      · have hm' := hm (Or.inl ⟨h1, h2⟩)
        rw [abs_of_nonpos (by linarith : q.1.1 - q.2.1 ≤ 0)] at hm'
        rw [if_pos h1, if_neg (not_lt.mpr h2)]
        show |q.1.1 + 360 - q.2.1| ≤ 180
        apply abs_le.mpr
        constructor <;> linarith [ha.1, hb.2]
      · have hm' := hm (Or.inr ⟨h1, h2⟩)
        rw [abs_of_nonneg (by linarith : 0 ≤ q.1.1 - q.2.1)] at hm'
        rw [if_neg (not_lt.mpr h1), if_pos h2]
        show |q.1.1 - (q.2.1 + 360)| ≤ 180
        apply abs_le.mpr
        constructor <;> linarith [ha.2, hb.1]
      · rw [if_neg (not_lt.mpr h1), if_neg (not_lt.mpr h2)]
        show |q.1.1 - q.2.1| ≤ 180
        apply abs_le.mpr
        constructor <;> linarith [ha.1, ha.2, hb.1, hb.2]

theorem idl_normalizer_amended_witness :
    (makeIdlCrossingsPositive idlPts).length = idlPts.length ∧
    List.Forall₂ (fun p q => q.2 = p.2 ∧ (q.1 = p.1 ∨ q.1 = p.1 + 360)) idlPts
      (makeIdlCrossingsPositive idlPts) ∧
    crossesIDL (makeIdlCrossingsPositive idlPts) = false :=
  idl_normalizer_amended idlPts (by norm_num [idlPts]) (by norm_num [idlPts])

/-- C8: for every accepted feature, when the export-original-coordinates
flag is set, the output attribute row is the copied input attributes
followed by exactly the two native-frame anchor coordinates, read before
any reprojection — the theorem holds for every configuration, hence for
arbitrary coordinate transforms, so the appended values are independent of
any transform applied afterward. -/
theorem export_geom_appends_native_xy {β : Type} (samp : ℚ → ℤ → ℚ → ℚ → β)
    (S : ℚ × ℚ → β → Option (ℚ × ℚ)) (cfg : Config) (f : Feature) (o : OutFeature)
    (hexp : cfg.export_geom = true)
    (h : processFeature samp S cfg f = Except.ok (some o)) :
    o.attrs = f.attrs ++ [f.ptx, f.pty] := by
  cases hres : resolveParams cfg f with
  | none =>
    simp only [processFeature, hres] at h
    simp at h
  | some p =>
    simp only [processFeature, hres] at h
    cases hm : mapOption (fun angle => S (anchor cfg f) (samp p.r p.lobes2 p.sangle angle))
        (sampleAngles cfg.segments) with
    | none =>
      simp only [hm] at h
      exact Except.noConfusion h
    | some pts =>
      simp only [hm] at h
      injection h with h1
      injection h1 with h2
      rw [← h2]
      simp [hexp]

theorem export_geom_appends_native_xy_witness :
    outExport34.attrs = featAnchor34.attrs ++ [featAnchor34.ptx, featAnchor34.pty] :=
  export_geom_appends_native_xy sampQ solverEcho cfgExport featAnchor34 outExport34
    rfl
    (by norm_num [processFeature, resolveParams, cfgExport, featAnchor34, Config.radiusM,
      Config.r2, sampleAngles, angleLoop, mapOption, sampQ, solverEcho, anchor,
      makeIdlCrossingsPositive, crossesIDL, shiftNeg, outExport34])

end CreateEpicycloid
